import Mathlib

/-!
Verification of the numerical-geometry core of the `princemuel/raytracer`
repository (tolerant float comparison, tuple/vector/point algebra, colors,
square matrices).

The f64 values of the source are embedded as `Fl α`: an exact scalar of a
linear ordered field `α` plus the IEEE special values `inf`, `negInf` and
`nan`.  Arithmetic on finite values is exact (no rounding is modelled);
the propagation of the special values follows IEEE 754 binary64, with a
single unsigned zero.  The embedding is instantiated at `α = ℚ` (fully
computable, used by the comparison, color and matrix claims) and at
`α = ℝ` (used where the source takes a square root).
-/

universe u

inductive Fl (α : Type u) where
  | finite (x : α)
  | inf
  | negInf
  | nan
deriving DecidableEq

variable {α : Type u} [LinearOrderedField α] [DecidableEq α]
  [DecidableRel ((· < ·) : α → α → Prop)] [DecidableRel ((· ≤ ·) : α → α → Prop)]

/-- `f64::is_nan` of the source. -/
def Fl.isNan : Fl α → Bool
  | .nan => true
  | _ => false

/-- `f64::is_infinite` of the source. -/
def Fl.isInfinite : Fl α → Bool
  | .inf => true
  | .negInf => true
  | _ => false

/-- `f64::is_finite` of the source. -/
def Fl.isFinite : Fl α → Bool
  | .finite _ => true
  | _ => false

/-- The IEEE `==` operator on f64 (`a == b` in the source): `nan` equals
nothing, equal infinities are equal, finite values compare exactly. -/
def Fl.beq : Fl α → Fl α → Bool
  | .finite x, .finite y => decide (x = y)
  | .inf, .inf => true
  | .negInf, .negInf => true
  | _, _ => false

/-- The IEEE `<` operator on f64: false whenever an operand is `nan`. -/
def Fl.lt : Fl α → Fl α → Bool
  | .nan, _ => false
  | _, .nan => false
  | .finite x, .finite y => decide (x < y)
  | .finite _, .inf => true
  | .finite _, .negInf => false
  | .inf, _ => false
  | .negInf, .negInf => false
  | .negInf, _ => true

/-- The IEEE `<=` operator on f64: false whenever an operand is `nan`. -/
def Fl.le : Fl α → Fl α → Bool
  | .nan, _ => false
  | _, .nan => false
  | .finite x, .finite y => decide (x ≤ y)
  | .finite _, .inf => true
  | .finite _, .negInf => false
  | .inf, .inf => true
  | .inf, _ => false
  | .negInf, _ => true

/-- IEEE negation. -/
def Fl.neg : Fl α → Fl α
  | .finite x => .finite (-x)
  | .inf => .negInf
  | .negInf => .inf
  | .nan => .nan

/-- IEEE addition (exact on finite values; `inf + negInf = nan`). -/
def Fl.add : Fl α → Fl α → Fl α
  | .nan, _ => .nan
  | _, .nan => .nan
  | .finite x, .finite y => .finite (x + y)
  | .finite _, .inf => .inf
  | .finite _, .negInf => .negInf
  | .inf, .inf => .inf
  | .inf, .negInf => .nan
  | .inf, .finite _ => .inf
  | .negInf, .negInf => .negInf
  | .negInf, .inf => .nan
  | .negInf, .finite _ => .negInf

/-- IEEE subtraction, `a - b = a + (-b)` exactly. -/
def Fl.sub (a b : Fl α) : Fl α := a.add b.neg

/-- IEEE multiplication (exact on finite values; `inf * 0 = nan`). -/
def Fl.mul : Fl α → Fl α → Fl α
  | .nan, _ => .nan
  | _, .nan => .nan
  | .finite x, .finite y => .finite (x * y)
  | .finite x, .inf => if x = 0 then .nan else if 0 < x then .inf else .negInf
  | .finite x, .negInf => if x = 0 then .nan else if 0 < x then .negInf else .inf
  | .inf, .finite y => if y = 0 then .nan else if 0 < y then .inf else .negInf
  | .negInf, .finite y => if y = 0 then .nan else if 0 < y then .negInf else .inf
  | .inf, .inf => .inf
  | .inf, .negInf => .negInf
  | .negInf, .inf => .negInf
  | .negInf, .negInf => .inf

/-- IEEE division (exact on finite values; `x / 0` gives a signed infinity
for `x ≠ 0` and `nan` for `x = 0`; the model's single zero behaves as `+0`). -/
def Fl.div : Fl α → Fl α → Fl α
  | .nan, _ => .nan
  | _, .nan => .nan
  | .finite x, .finite y =>
      if y = 0 then (if x = 0 then .nan else if 0 < x then .inf else .negInf)
      else .finite (x / y)
  | .finite _, .inf => .finite 0
  | .finite _, .negInf => .finite 0
  | .inf, .finite y => if 0 ≤ y then .inf else .negInf
  | .negInf, .finite y => if 0 ≤ y then .negInf else .inf
  | .inf, _ => .nan
  | .negInf, _ => .nan

/-- `f64::abs` of the source. -/
def Fl.abs : Fl α → Fl α
  | .finite x => .finite |x|
  | .inf => .inf
  | .negInf => .inf
  | .nan => .nan

/-- `f64::max` of the source (NaN-ignoring maximum). -/
def Fl.fmax : Fl α → Fl α → Fl α
  | .nan, b => b
  | .finite x, .nan => .finite x
  | .inf, .nan => .inf
  | .negInf, .nan => .negInf
  | a, b => if a.lt b then b else a

/-- `f64::recip` of the source, `1.0 / self`. -/
def Fl.recip (a : Fl α) : Fl α := (Fl.finite 1).div a

/-- The constant `EPSILON = 1e-5` of `src/cmp/epsilon.rs` (also the value of
`EPSILON` in `src/math/epsilon.rs`); written through `mkRat` so that the
kernel can evaluate it. -/
def EPSILON (α : Type u) [LinearOrderedField α] : α := ((mkRat 1 100000 : ℚ) : α)

/-- `is_equal` of `src/cmp/float.rs`, embedded branch for branch.  Note that
after the exact-equality, NaN and infinity guards, the source compares
`math::max(a, math::abs(b))` against `1.0` and multiplies the epsilon by
`math::max(a, math::abs(b))` — the first operand is `a`, not `abs(a)`. -/
def is_equal (a b : Fl α) : Bool :=
  if a.beq b then true
  else if a.isNan || b.isNan then false
  else if a.isInfinite || b.isInfinite then false
  else
    let diff := (a.sub b).abs
    if (Fl.fmax a b.abs).lt (Fl.finite 1) then diff.lt (Fl.finite (EPSILON α))
    else
      let relativeEpsilon := (Fl.finite (EPSILON α)).mul (Fl.fmax a b.abs)
      diff.lt (Fl.fmax (Fl.finite (EPSILON α)) relativeEpsilon)

/-- `is_equal_float` of `src/math/epsilon.rs` (the sibling of `is_equal`,
identical except that it compares `a.abs().max(b.abs())`). -/
def is_equal_float (a b : Fl α) : Bool :=
  if a.beq b then true
  else if a.isNan || b.isNan then false
  else if a.isInfinite || b.isInfinite then false
  else
    let diff := (a.sub b).abs
    if (Fl.fmax a.abs b.abs).lt (Fl.finite 1) then diff.lt (Fl.finite (EPSILON α))
    else
      let relativeEpsilon := (Fl.finite (EPSILON α)).mul (Fl.fmax a.abs b.abs)
      diff.lt (Fl.fmax (Fl.finite (EPSILON α)) relativeEpsilon)

/-- `ApproxEq::approx_eq_epsilon` for f64 of `src/math/approx.rs`: NaN guard,
infinity guard, then the `float_cmp` crate's epsilon-margin comparison
(`a == b || (a - b).abs() <= epsilon`, with the ulps tolerance zero). -/
def approx_eq_epsilon (a b eps : Fl α) : Bool :=
  if a.isNan || b.isNan then false
  else if a.isInfinite || b.isInfinite then false
  else a.beq b || ((a.sub b).abs.le eps)

/-- Modelled from the spec: the `Epsilon` tier struct referenced by
`src/math/approx.rs` (`Epsilon::TIGHT`, `Epsilon::STANDARD`,
`Epsilon::INTERSECT`, `Epsilon::COARSE`) is absent from the staged sources;
the spec gives the ordered example values coarse `1e-3`, intersect `1e-4`,
standard `1e-5`, tight `1e-9`. -/
def Epsilon.TIGHT : Fl ℚ := Fl.finite (mkRat 1 1000000000)

/-- Modelled from the spec: the standard tier constant, `1e-5`. -/
def Epsilon.STANDARD : Fl ℚ := Fl.finite (mkRat 1 100000)

/-- Modelled from the spec: the intersect tier constant, `1e-4`. -/
def Epsilon.INTERSECT : Fl ℚ := Fl.finite (mkRat 1 10000)

/-- Modelled from the spec: the coarse tier constant, `1e-3`. -/
def Epsilon.COARSE : Fl ℚ := Fl.finite (mkRat 1 1000)

/-- The computable rational instantiation of the scalar model. -/
abbrev F64 := Fl ℚ

/-! ## Color algebra (`src/primitives/color.rs`) -/

/-- A `Color3` of `src/primitives/color.rs`: three f64 channels. -/
structure Color3 where
  r : F64
  g : F64
  b : F64
deriving DecidableEq

/-- The constant `INV_255 = 1.0 / 255.0` of `src/primitives/color.rs`. -/
def INV_255 : ℚ := mkRat 1 255

/-- `From<[u8; 3]> for Color3`: each byte is converted to f64 and multiplied
by `INV_255`. -/
def colorFromBytes (x y z : ℕ) : Color3 :=
  ⟨(Fl.finite (x : ℚ)).mul (Fl.finite INV_255),
   (Fl.finite (y : ℚ)).mul (Fl.finite INV_255),
   (Fl.finite (z : ℚ)).mul (Fl.finite INV_255)⟩

/-- `f64::clamp(0.0, 1.0)` as used by the byte conversion: values below the
range clamp to `0`, above to `1`, NaN stays NaN. -/
def Fl.clamp01 : F64 → F64
  | .nan => .nan
  | .inf => .finite 1
  | .negInf => .finite 0
  | .finite q => if q < 0 then .finite 0 else if 1 < q then .finite 1 else .finite q

/-- Rounding half away from zero on ℚ, the behaviour of `f64::round`. -/
def qroundAway (q : ℚ) : ℤ := if 0 ≤ q then ⌊q + mkRat 1 2⌋ else ⌈q - mkRat 1 2⌉

/-- `f64::round` on the model (half away from zero; special values fixed). -/
def Fl.round : F64 → F64
  | .finite q => .finite ((qroundAway q : ℤ) : ℚ)
  | .inf => .inf
  | .negInf => .negInf
  | .nan => .nan

/-- The `as u8` cast of Rust: truncation toward zero with saturation to
`[0, 255]`; NaN casts to `0`. -/
def Fl.toU8 : F64 → ℕ
  | .nan => 0
  | .inf => 255
  | .negInf => 0
  | .finite q => if q ≤ 0 then 0 else if 255 ≤ q then 255 else (⌊q⌋).toNat

/-- `From<Color3> for [u8; 3]`: clamp each channel to `[0,1]`, scale by 255,
round to nearest, cast to `u8`. -/
def colorToBytes (c : Color3) : ℕ × ℕ × ℕ :=
  (((c.r.clamp01).mul (Fl.finite 255)).round.toU8,
   ((c.g.clamp01).mul (Fl.finite 255)).round.toU8,
   ((c.b.clamp01).mul (Fl.finite 255)).round.toU8)

/-! ## Square matrices (`src/primitives/matrix.rs`) -/

/-- `Matrix<N>` of `src/primitives/matrix.rs`: an `N × N` grid of f64,
viewed through its row/column indexing `self[(row, col)]`. -/
def Mat (n : ℕ) := Fin n → Fin n → F64

/-- `Iterator::sum` for f64: a left fold of `+` starting from `0.0`. -/
def sumF64 (l : List F64) : F64 := l.foldl Fl.add (Fl.finite 0)

/-- `Mul for Matrix<N>`: `result[row][col] = Σ_k self[(row, k)] * rhs[(k, col)]`,
the sum taken over `0..N` in order. -/
def matMul {n : ℕ} (A B : Mat n) : Mat n :=
  fun i j => sumF64 ((List.finRange n).map fun k => (A i k).mul (B k j))

/-- `Matrix::IDENTITY = Self::diagonal(1.0)`: ones on the diagonal, zeroes
elsewhere. -/
def identityMat (n : ℕ) : Mat n := fun i j => Fl.finite (if i = j then 1 else 0)

/-- `PartialEq for Matrix<N>`: all buffer entries pairwise `is_equal`. -/
def matEq {n : ℕ} (A B : Mat n) : Bool :=
  (List.finRange n).all fun i => (List.finRange n).all fun j => is_equal (A i j) (B i j)

/-! ## Determinant and inverse

`src/primitives/matrix.rs` declares the `Submatrix`, `Determinant`, `Minor`,
`Cofactor` and `Inverse` traits (lines 362-410) but the staged sources hold
no implementation of them, so the algorithms below are modelled from the
spec, §4.3. -/

/-- Modelled from the spec: `Submatrix(row, col)` removes the given row and
column, yielding an `(N-1) × (N-1)` matrix. -/
def submatrix {n : ℕ} (A : Mat (n + 1)) (r c : Fin (n + 1)) : Mat n :=
  fun i j => A (r.succAbove i) (c.succAbove j)

/-- Modelled from the spec: the determinant, base case `N = 2` is
`a*d - b*c`, general case is Laplace expansion along the first row,
`Σ_col buffer[0][col] * minor(0, col) * (-1)^(0 + col)`.  (Sizes 0 and 1,
below the spec's base case, are given their standard values.) -/
def determinant : (n : ℕ) → Mat n → F64
  | 0, _ => Fl.finite 1
  | 1, A => A 0 0
  | 2, A => ((A 0 0).mul (A 1 1)).sub ((A 0 1).mul (A 1 0))
  | n + 3, A => sumF64 ((List.finRange (n + 3)).map fun c =>
      (A 0 c).mul ((determinant (n + 2) (submatrix A 0 c)).mul
        (Fl.finite ((-1 : ℚ) ^ (0 + c.val)))))

/-- Modelled from the spec: `Minor(row, col) = determinant(submatrix(row, col))`. -/
def minor {n : ℕ} (A : Mat (n + 1)) (r c : Fin (n + 1)) : F64 :=
  determinant n (submatrix A r c)

/-- Modelled from the spec: `Cofactor(row, col) = minor(row, col) * (-1)^(row+col)`. -/
def cofactor {n : ℕ} (A : Mat (n + 1)) (r c : Fin (n + 1)) : F64 :=
  (minor A r c).mul (Fl.finite ((-1 : ℚ) ^ (r.val + c.val)))

/-- Modelled from the spec: `invertible()` is true iff the determinant is not
approximately zero at the tightest epsilon tier. -/
def invertible {n : ℕ} (A : Mat n) : Bool :=
  !(approx_eq_epsilon (determinant n A) (Fl.finite 0) Epsilon.TIGHT)

/-- Modelled from the spec: `inverse()` by the adjugate method,
`inverse[col][row] = cofactor(row, col) / determinant`; the absent value when
not invertible. -/
def inverse {n : ℕ} (A : Mat (n + 1)) : Option (Mat (n + 1)) :=
  if invertible A then
    some (fun i j => (cofactor A j i).div (determinant (n + 1) A))
  else none

/-! ## Vectors, points and tuples
(`src/primitives/vector.rs`, `src/primitives/point.rs`,
`src/math/primitives/tuple.rs`) -/

/-- `Vec3` of `src/primitives/vector.rs`: three f64 components. -/
structure Vec3 (α : Type u) where
  x : Fl α
  y : Fl α
  z : Fl α

/-- `Vec3::w()`, the constant `0.0`. -/
def Vec3.w (_ : Vec3 α) : Fl α := Fl.finite 0

/-- `Vec3::ZERO`. -/
def Vec3.zeroVec : Vec3 α := ⟨Fl.finite 0, Fl.finite 0, Fl.finite 0⟩

/-- `Vec3::dot`: `x*x' + y*y' + z*z' + w*w'` (left associated, as in the
source). -/
def Vec3.dot (v r : Vec3 α) : Fl α :=
  (((v.x.mul r.x).add (v.y.mul r.y)).add (v.z.mul r.z)).add (v.w.mul r.w)

/-- The scalar `Mul<f64> for Vec3` of `impl_ops!` — componentwise `* rhs`. -/
def Vec3.mulScalar (v : Vec3 α) (s : Fl α) : Vec3 α :=
  ⟨v.x.mul s, v.y.mul s, v.z.mul s⟩

/-- The scalar `Div<f64> for Vec3` of `impl_ops!` — componentwise `/ rhs`. -/
def Vec3.divScalar (v : Vec3 α) (s : Fl α) : Vec3 α :=
  ⟨v.x.div s, v.y.div s, v.z.div s⟩

/-- Follows the spec's words for scalar division: multiplication by the
reciprocal of the scalar, `v * (1/s)`, componentwise. -/
def Vec3.divScalarSpec (v : Vec3 α) (s : Fl α) : Vec3 α :=
  v.mulScalar ((Fl.finite 1).div s)

/-- `Tuple` of `src/math/primitives/tuple.rs`: `(x, y, z, w)`. -/
structure TupleM (α : Type u) where
  x : Fl α
  y : Fl α
  z : Fl α
  w : Fl α

/-- `Mul<Tuple> for f64` (scalar on the left, `self * rhs.i` componentwise). -/
def TupleM.scalarMul (s : Fl α) (t : TupleM α) : TupleM α :=
  ⟨s.mul t.x, s.mul t.y, s.mul t.z, s.mul t.w⟩

/-- `Mul<f64> for Tuple`, defined in the source as `rhs * self`. -/
def TupleM.mulScalar (t : TupleM α) (s : Fl α) : TupleM α :=
  TupleM.scalarMul s t

/-- `Div<f64> for Tuple` of `src/math/primitives/tuple.rs` line 122:
`self * (1.0 / rhs)`. -/
def TupleM.divScalar (t : TupleM α) (s : Fl α) : TupleM α :=
  t.mulScalar ((Fl.finite 1).div s)

/-- Follows the spec's words for scalar division: each component multiplied
by the reciprocal `1/s`. -/
def TupleM.divScalarSpec (t : TupleM α) (s : Fl α) : TupleM α :=
  ⟨t.x.mul ((Fl.finite 1).div s), t.y.mul ((Fl.finite 1).div s),
   t.z.mul ((Fl.finite 1).div s), t.w.mul ((Fl.finite 1).div s)⟩

/-- `Point3` of `src/primitives/point.rs`: three f64 components. -/
structure Point3 where
  x : F64
  y : F64
  z : F64

/-- `Point3::w()`, the constant `1.0`. -/
def Point3.w (_ : Point3) : F64 := Fl.finite 1

/-- `From<Point3> for [f64; 4]` (line 132-135): `[p.0, p.1, p.2, 0.0]`. -/
def Point3.toArray4 (p : Point3) : List F64 := [p.x, p.y, p.z, Fl.finite 0]

/-- `From<Point3> for (f64, f64, f64, f64)` (line 151-154):
`(p.0, p.1, p.2, 0.0)`. -/
def Point3.toTuple4 (p : Point3) : F64 × F64 × F64 × F64 :=
  (p.x, p.y, p.z, Fl.finite 0)

/-! ## Length and normalization (`src/primitives/vector.rs`)

`Vec3::length` takes a square root, so these operations are embedded over
the exact reals (`Fl ℝ`): finite arithmetic is exact, the special values
propagate as in IEEE 754. -/

/-- `f64::sqrt`: NaN on negative inputs, `inf` at `inf`, exact `Real.sqrt`
on nonnegative finite values. -/
noncomputable def Fl.sqrt : Fl ℝ → Fl ℝ
  | .finite x => if x < 0 then .nan else .finite (Real.sqrt x)
  | .inf => .inf
  | .negInf => .nan
  | .nan => .nan

/-- `Vec3::length`: `math::sqrt(self.dot(self))`. -/
noncomputable def Vec3.length (v : Vec3 ℝ) : Fl ℝ := (v.dot v).sqrt

/-- `Vec3::length_recip`: `self.length().recip()`. -/
noncomputable def Vec3.lengthRecip (v : Vec3 ℝ) : Fl ℝ := v.length.recip

/-- `Vec3::normalize`: `self.mul(self.length_recip())` — the unchecked fast
path. -/
noncomputable def Vec3.normalize (v : Vec3 ℝ) : Vec3 ℝ := v.mulScalar v.lengthRecip

/-- `Vec3::try_normalize`: `None` unless the length is finite and at least
`EPSILON`; otherwise `self / len`. -/
noncomputable def Vec3.tryNormalize (v : Vec3 ℝ) : Option (Vec3 ℝ) :=
  if (v.length.isFinite && (Fl.finite (EPSILON ℝ)).le v.length) = true then
    some (v.divScalar v.length)
  else none

/-- The finite payload of a model value (`0` for the special values). -/
def Fl.val : Fl α → α
  | .finite x => x
  | _ => 0

/-- All components of a possibly-absent vector are finite (trivially true of
the absent value). -/
def allFiniteOpt : Option (Vec3 ℝ) → Prop
  | none => True
  | some u => u.x.isFinite = true ∧ u.y.isFinite = true ∧ u.z.isFinite = true

/-! ## Helper lemmas -/

set_option maxRecDepth 100000

lemma Fl.le_trans {x y z : Fl α} (h1 : x.le y = true) (h2 : y.le z = true) :
    x.le z = true := by
  cases x <;> cases y <;> cases z <;> simp_all [Fl.le] <;> exact h1.trans h2

/-- Monotonicity of the epsilon-margin comparison in its tolerance: the NaN
and infinity guards do not involve the tolerance, and the margin test is
monotone. -/
lemma approx_eq_epsilon_mono {a b e1 e2 : Fl α} (h12 : e1.le e2 = true)
    (h : approx_eq_epsilon a b e1 = true) : approx_eq_epsilon a b e2 = true := by
  unfold approx_eq_epsilon at h ⊢
  by_cases hn : (a.isNan || b.isNan) = true
  · rw [if_pos hn] at h; exact absurd h (by simp)
  · rw [if_neg hn] at h ⊢
    by_cases hi : (a.isInfinite || b.isInfinite) = true
    · rw [if_pos hi] at h; exact absurd h (by simp)
    · rw [if_neg hi] at h ⊢
      simp only [Bool.or_eq_true] at h ⊢
      rcases h with h | h
      · exact Or.inl h
      · exact Or.inr (Fl.le_trans h h12)

/-! ## Claims about the comparison layer -/

/-- C1 (amended).  `ApproxEq::approx_eq_epsilon` returns false whenever
either operand is infinite — even comparing `+inf` to `+inf`, at any
tolerance.  `is_equal` of `src/cmp/float.rs`, however, short-circuits on
exact equality before its infinity guard, so with an infinite operand it
returns exactly what the IEEE `==` operator returns: true when both
operands are the same infinity, false otherwise. -/
theorem C1_infinity_comparison (a b e : F64)
    (h : a.isInfinite = true ∨ b.isInfinite = true) :
    approx_eq_epsilon a b e = false ∧ is_equal a b = a.beq b := by
  cases a <;> cases b <;>
    simp_all [approx_eq_epsilon, is_equal, Fl.isInfinite, Fl.isNan, Fl.beq]

/-- C1 witness: the amended statement at `+inf`, `+inf`, tolerance `1.0`. -/
theorem C1_infinity_comparison_witness :
    approx_eq_epsilon (Fl.inf : F64) Fl.inf (Fl.finite 1) = false ∧
      is_equal (Fl.inf : F64) Fl.inf = Fl.beq (Fl.inf : F64) Fl.inf :=
  C1_infinity_comparison Fl.inf Fl.inf (Fl.finite 1) (Or.inl rfl)

/-- C1 counterexample: the claim says every approximate-equality comparison
rejects `+inf` compared to `+inf`, but `is_equal` accepts it through its
exact-equality fast path. -/
theorem C1_is_equal_inf_inf_true : is_equal (Fl.inf : F64) Fl.inf = true := by
  decide

unseal Rat.add Rat.mul Rat.sub Rat.inv in
/-- C2: evaluation of the code at the failing input `a = -1.000008`,
`b = -0.99999799996` (difference `1.000004e-5`).  Here
`max(|a|, |b|) = 1.000008 ≥ 1`, so the claim (and the sibling
`is_equal_float`, which the second conjunct evaluates) selects the relative
threshold `max(1e-5, 1e-5 * 1.000008) = 1.000008e-5`, which exceeds the
difference — but `is_equal` compares `max(a, |b|) = |b| < 1` (the negative
`a` itself, not `|a|`) and takes the absolute branch, rejecting the pair.
The third conjunct records that the difference is below the claim's
relative threshold. -/
theorem C2_is_equal_missing_abs_eval :
    is_equal (Fl.finite (mkRat (-1000008) 1000000))
        (Fl.finite (mkRat (-99999799996) 100000000000)) = false
    ∧ is_equal_float (Fl.finite (mkRat (-1000008) 1000000))
        (Fl.finite (mkRat (-99999799996) 100000000000)) = true
    ∧ |mkRat (-1000008) 1000000 - mkRat (-99999799996) 100000000000|
        < EPSILON ℚ * max |mkRat (-1000008) 1000000| |mkRat (-99999799996) 100000000000| := by
  refine ⟨by decide, by decide, by decide⟩

/-- C9.  Tolerance monotonicity of the approximate-equality comparison: an
accepted pair stays accepted at any larger tolerance, and in particular
acceptance propagates along the tier chain tight → standard → intersect →
coarse. -/
theorem C9_tier_monotonicity :
    (∀ a b e1 e2 : F64, e1.le e2 = true →
        approx_eq_epsilon a b e1 = true → approx_eq_epsilon a b e2 = true)
    ∧ (∀ a b : F64, approx_eq_epsilon a b Epsilon.TIGHT = true →
        approx_eq_epsilon a b Epsilon.STANDARD = true)
    ∧ (∀ a b : F64, approx_eq_epsilon a b Epsilon.STANDARD = true →
        approx_eq_epsilon a b Epsilon.INTERSECT = true)
    ∧ (∀ a b : F64, approx_eq_epsilon a b Epsilon.INTERSECT = true →
        approx_eq_epsilon a b Epsilon.COARSE = true) := by
  refine ⟨fun a b e1 e2 h12 h => approx_eq_epsilon_mono h12 h,
    fun a b h => approx_eq_epsilon_mono (by decide) h,
    fun a b h => approx_eq_epsilon_mono (by decide) h,
    fun a b h => approx_eq_epsilon_mono (by decide) h⟩

/-- C9 witness: monotonicity applied at `a = b = 0`, tolerances `0 ≤ 1`. -/
theorem C9_tier_monotonicity_witness :
    approx_eq_epsilon (Fl.finite (0 : ℚ)) (Fl.finite 0) (Fl.finite 1) = true :=
  C9_tier_monotonicity.1 (Fl.finite 0) (Fl.finite 0) (Fl.finite 0) (Fl.finite 1)
    (by decide) (by decide)

/-! ## Claims about conversions and scalar division -/

/-- C10.  The public conversions from `Point3` to a 4-element array and to a
4-element tuple both emit `(x, y, z, 0.0)` — a vector-style homogeneous
`w` of `0.0` — even though `Point3::w()` returns `1.0`, so the converted
value disagrees with the point's own `w` accessor. -/
theorem C10_point_conversions_carry_vector_w (p : Point3) :
    p.toArray4 = [p.x, p.y, p.z, Fl.finite 0] ∧
    p.toTuple4 = (p.x, p.y, p.z, Fl.finite 0) ∧
    p.w = Fl.finite 1 ∧
    p.toArray4 ≠ [p.x, p.y, p.z, p.w] := by
  refine ⟨rfl, rfl, rfl, ?_⟩
  simp [Point3.toArray4, Point3.w]

/-- In the exact model, dividing by a scalar and multiplying by its
reciprocal `1/s` agree at every input, special values included. -/
lemma Fl.div_eq_mul_recip (a s : Fl α) : a.div s = a.mul ((Fl.finite 1).div s) := by
  cases s with
  | nan => cases a <;> rfl
  | inf => cases a <;> simp [Fl.div, Fl.mul]
  | negInf => cases a <;> simp [Fl.div, Fl.mul]
  | finite y =>
      by_cases hy : y = 0
      · subst hy
        rw [show (Fl.finite (1 : α)).div (Fl.finite (0 : α)) = Fl.inf by
          simp [Fl.div]]
        cases a <;> simp [Fl.div, Fl.mul]
      · rw [show (Fl.finite (1 : α)).div (Fl.finite y) = Fl.finite (1 / y) by
          simp [Fl.div, hy]]
        rcases lt_or_gt_of_ne hy with hneg | hpos
        · cases a with
          | nan => rfl
          | finite x => simp [Fl.div, Fl.mul, hy, div_eq_mul_inv]
          | inf =>
              simp only [Fl.div, Fl.mul]
              rw [if_neg (not_le.mpr hneg), if_neg (one_div_ne_zero hy),
                if_neg (not_lt.mpr (le_of_lt (one_div_neg.mpr hneg)))]
          | negInf =>
              simp only [Fl.div, Fl.mul]
              rw [if_neg (not_le.mpr hneg), if_neg (one_div_ne_zero hy),
                if_neg (not_lt.mpr (le_of_lt (one_div_neg.mpr hneg)))]
        · cases a with
          | nan => rfl
          | finite x => simp [Fl.div, Fl.mul, hy, div_eq_mul_inv]
          | inf =>
              simp only [Fl.div, Fl.mul]
              rw [if_pos (le_of_lt hpos), if_neg (one_div_ne_zero hy),
                if_pos (one_div_pos.mpr hpos)]
          | negInf =>
              simp only [Fl.div, Fl.mul]
              rw [if_pos (le_of_lt hpos), if_neg (one_div_ne_zero hy),
                if_pos (one_div_pos.mpr hpos)]

/-- Multiplication in the model is commutative (as IEEE multiplication is). -/
lemma Fl.mulComm (a b : Fl α) : a.mul b = b.mul a := by
  cases a <;> cases b <;> simp only [Fl.mul] <;> first | rfl | rw [mul_comm]

/-- C8.  Scalar division of a `Vec3` and of a `Tuple` produces, componentwise,
the same result as scalar multiplication by the reciprocal `1/s` — for
`Tuple` the source computes it that way (`self * (1.0 / rhs)`), for `Vec3`
the componentwise `/` of `impl_ops!` coincides with it in the exact model. -/
theorem C8_scalar_div_is_mul_by_reciprocal :
    (∀ (v : Vec3 ℚ) (s : F64), v.divScalar s = v.divScalarSpec s)
    ∧ (∀ (t : TupleM ℚ) (s : F64), t.divScalar s = t.divScalarSpec s) := by
  constructor
  · intro v s
    simp only [Vec3.divScalar, Vec3.divScalarSpec, Vec3.mulScalar]
    rw [Fl.div_eq_mul_recip v.x s, Fl.div_eq_mul_recip v.y s,
      Fl.div_eq_mul_recip v.z s]
  · intro t s
    simp only [TupleM.divScalar, TupleM.divScalarSpec, TupleM.mulScalar,
      TupleM.scalarMul]
    rw [Fl.mulComm ((Fl.finite 1).div s) t.x, Fl.mulComm ((Fl.finite 1).div s) t.y,
      Fl.mulComm ((Fl.finite 1).div s) t.z, Fl.mulComm ((Fl.finite 1).div s) t.w]

/-- Round trip of one byte channel: byte → f64 channel → clamp, scale,
round, cast — the identity on `0..255` in the exact model. -/
lemma byte_channel_roundtrip (v : ℕ) (hv : v ≤ 255) :
    (((Fl.finite (v : ℚ)).mul (Fl.finite INV_255)).clamp01.mul
      (Fl.finite 255)).round.toU8 = v := by
  have hinv : INV_255 = 1 / 255 := by
    rw [INV_255, Rat.mkRat_eq_div]; norm_num
  have hq : ((v : ℚ) * INV_255) = v / 255 := by rw [hinv]; ring
  have h0 : ¬ ((v : ℚ) / 255 < 0) := not_lt.mpr (by positivity)
  have h1 : ¬ ((1 : ℚ) < (v : ℚ) / 255) := by
    rw [not_lt, div_le_one (by norm_num)]
    exact_mod_cast hv
  have hmul : ((v : ℚ) / 255) * 255 = (v : ℚ) := by field_simp
  have hhalf : (mkRat 1 2 : ℚ) = 1 / 2 := by rw [Rat.mkRat_eq_div]; norm_num
  have hround : qroundAway (v : ℚ) = (v : ℤ) := by
    rw [qroundAway, if_pos (Nat.cast_nonneg v), hhalf,
      show ((v : ℚ) + 1 / 2) = ((v : ℤ) : ℚ) + 1 / 2 by push_cast; ring,
      Int.floor_int_add]
    norm_num
  simp only [Fl.mul, Fl.clamp01, hq, if_neg h0, if_neg h1, hmul, Fl.round,
    hround, Fl.toU8, Int.cast_natCast]
  rcases Nat.eq_zero_or_pos v with h | h
  · subst h; norm_num
  · rw [if_neg (not_le.mpr (by exact_mod_cast h))]
    rcases eq_or_lt_of_le hv with h255 | h255
    · subst h255; norm_num
    · rw [if_neg (by push_cast; exact_mod_cast not_le.mpr h255), Int.floor_natCast,
        Int.toNat_natCast]

/-- C5.  Byte → color → byte round trip: for every byte triple in
`[0,255]³`, converting to a `Color3` (channels scaled by `1/255`) and back
(clamp to `[0,1]`, scale by 255, round) reproduces the triple exactly. -/
theorem C5_byte_color_roundtrip (r g b : ℕ) (hr : r ≤ 255) (hg : g ≤ 255)
    (hb : b ≤ 255) : colorToBytes (colorFromBytes r g b) = (r, g, b) := by
  simp only [colorToBytes, colorFromBytes]
  rw [byte_channel_roundtrip r hr, byte_channel_roundtrip g hg,
    byte_channel_roundtrip b hb]

/-- C5 witness: the round trip at the concrete triple `(0, 128, 255)`. -/
theorem C5_byte_color_roundtrip_witness :
    colorToBytes (colorFromBytes 0 128 255) = (0, 128, 255) :=
  C5_byte_color_roundtrip 0 128 255 (by decide) (by decide) (by decide)

/-! ## Claims about matrices -/

lemma Fl.eq_finite_val {a : Fl α} (h : a.isFinite = true) : a = Fl.finite a.val := by
  cases a <;> simp_all [Fl.isFinite, Fl.val]

lemma is_equal_finite_self (q : α) : is_equal (Fl.finite q) (Fl.finite q) = true := by
  simp [is_equal, Fl.beq]

lemma foldl_add_finite (l : List α) (q : α) :
    (l.map Fl.finite).foldl Fl.add (Fl.finite q) = Fl.finite (q + l.sum) := by
  induction l generalizing q with
  | nil => simp
  | cons x xs ih => simp [Fl.add, ih, add_assoc]

/-- C6 (amended).  For every square matrix `M` of any dimension whose entries
are all finite, `M * IDENTITY == M` holds under the matrix's epsilon-based
`PartialEq`: the product reproduces `M` exactly, entry for entry, and
`is_equal` accepts every exactly-equal finite pair. -/
theorem C6_mul_identity (n : ℕ) (M : Mat n)
    (hfin : ∀ i j, (M i j).isFinite = true) :
    matEq (matMul M (identityMat n)) M = true := by
  have key : ∀ i j, matMul M (identityMat n) i j = M i j := by
    intro i j
    have hmap : ((List.finRange n).map fun k => (M i k).mul (identityMat n k j))
        = ((List.finRange n).map fun k =>
            (M i k).val * if k = j then 1 else 0).map Fl.finite := by
      rw [List.map_map]
      refine List.map_congr_left fun k _ => ?_
      rw [Fl.eq_finite_val (hfin i k)]
      simp [identityMat, Fl.mul, Fl.val]
    have hsum : ((List.finRange n).map fun k =>
        (M i k).val * if k = j then 1 else 0).sum = (M i j).val := by
      rw [← Fin.sum_univ_def]
      simp [mul_ite, mul_one, mul_zero, Finset.sum_ite_eq']
    rw [matMul, hmap, sumF64, foldl_add_finite, hsum, zero_add]
    exact (Fl.eq_finite_val (hfin i j)).symm
  simp only [matEq, List.all_eq_true]
  intro i _ j _
  rw [key i j, Fl.eq_finite_val (hfin i j)]
  exact is_equal_finite_self _

/-- C6 witness: the amended statement at a concrete finite 2×2 matrix. -/
theorem C6_mul_identity_witness :
    matEq (matMul (fun i j => Fl.finite ((i.val : ℚ) + 2 * j.val) : Mat 2)
      (identityMat 2)) (fun i j => Fl.finite ((i.val : ℚ) + 2 * j.val)) = true :=
  C6_mul_identity 2 (fun i j => Fl.finite ((i.val : ℚ) + 2 * j.val))
    (fun _ _ => rfl)

/-- C6 counterexample: the claim as stated covers matrices with any f64
entries, but a 1×1 matrix holding NaN multiplied by the identity yields NaN,
and `is_equal` rejects NaN against NaN, so `M * IDENTITY == M` is false. -/
theorem C6_mul_identity_nan_false :
    matEq (matMul (fun _ _ => (Fl.nan : F64) : Mat 1) (identityMat 1))
      (fun _ _ => (Fl.nan : F64)) = false := by decide

/-- C3.  A matrix whose determinant is approximately zero at the tightest
epsilon tier reports `invertible() = false` and its `inverse()` is the
absent value; `invertible()` is true exactly when the determinant is not
approximately zero at the tightest tier. -/
theorem C3_singular_inverse_absent (n : ℕ) (A : Mat (n + 1)) :
    (approx_eq_epsilon (determinant (n + 1) A) (Fl.finite 0) Epsilon.TIGHT = true →
      invertible A = false ∧ inverse A = none)
    ∧ (invertible A = true ↔
      approx_eq_epsilon (determinant (n + 1) A) (Fl.finite 0) Epsilon.TIGHT = false) := by
  constructor
  · intro h
    have hinv : invertible A = false := by
      rw [invertible, h]; rfl
    refine ⟨hinv, ?_⟩
    rw [inverse, hinv]
    simp
  · rw [invertible]
    cases approx_eq_epsilon (determinant (n + 1) A) (Fl.finite 0) Epsilon.TIGHT <;>
      simp

unseal Rat.add Rat.mul Rat.sub Rat.inv in
/-- C3 witness: the all-ones 4×4 matrix has determinant zero; its
`invertible()` is false and its `inverse()` is the absent value. -/
theorem C3_singular_inverse_absent_witness :
    invertible (fun _ _ => Fl.finite 1 : Mat 4) = false
    ∧ inverse (fun _ _ => Fl.finite 1 : Mat 4) = none :=
  (C3_singular_inverse_absent 3 (fun _ _ => Fl.finite 1)).1 (by decide)

/-! ## Claims about length and normalization -/

lemma Fl.add_isFinite_iff {p q : Fl α} :
    (p.add q).isFinite = true ↔ p.isFinite = true ∧ q.isFinite = true := by
  cases p <;> cases q <;> simp [Fl.add, Fl.isFinite]

lemma Fl.mul_isFinite_iff {p q : Fl α} :
    (p.mul q).isFinite = true ↔ p.isFinite = true ∧ q.isFinite = true := by
  cases p <;> cases q <;> (try simp [Fl.mul, Fl.isFinite]) <;>
    split_ifs <;> simp [Fl.isFinite]

lemma Fl.sqrt_isFinite {r : Fl ℝ} (h : r.sqrt.isFinite = true) :
    r.isFinite = true := by
  cases r with
  | finite x => rfl
  | inf => simpa [Fl.sqrt, Fl.isFinite] using h
  | negInf => simpa [Fl.sqrt, Fl.isFinite] using h
  | nan => simpa [Fl.sqrt, Fl.isFinite] using h

lemma Vec3.dot_self_isFinite {v : Vec3 ℝ} (h : (v.dot v).isFinite = true) :
    v.x.isFinite = true ∧ v.y.isFinite = true ∧ v.z.isFinite = true := by
  rw [Vec3.dot] at h
  have h1 := Fl.add_isFinite_iff.mp h
  have h2 := Fl.add_isFinite_iff.mp h1.1
  have h3 := Fl.add_isFinite_iff.mp h2.1
  exact ⟨(Fl.mul_isFinite_iff.mp h3.1).1, (Fl.mul_isFinite_iff.mp h3.2).1,
    (Fl.mul_isFinite_iff.mp h2.2).1⟩

lemma Fl.div_isFinite_of_ne_zero {x : Fl α} {l : α} (hx : x.isFinite = true)
    (hl : l ≠ 0) : (x.div (Fl.finite l)).isFinite = true := by
  cases x <;> simp_all [Fl.div, hl, Fl.isFinite]

lemma EPSILON_real_pos : (0 : ℝ) < EPSILON ℝ := by
  rw [EPSILON, Rat.mkRat_eq_div]
  push_cast
  norm_num

/-- C4.  The checked normalize returns the absent value exactly when the
length is non-finite or below the `EPSILON` threshold — in particular
`Vec3::ZERO.try_normalize()` is absent — and whenever it returns a vector,
that vector has no NaN and no infinite component. -/
theorem C4_try_normalize_guard :
    (∀ v : Vec3 ℝ,
      (v.tryNormalize = none ↔
        (v.length.isFinite = false ∨ v.length.lt (Fl.finite (EPSILON ℝ)) = true))
      ∧ allFiniteOpt v.tryNormalize)
    ∧ (Vec3.zeroVec : Vec3 ℝ).tryNormalize = none := by
  have hmain : ∀ v : Vec3 ℝ,
      (v.tryNormalize = none ↔
        (v.length.isFinite = false ∨ v.length.lt (Fl.finite (EPSILON ℝ)) = true))
      ∧ allFiniteOpt v.tryNormalize := by
    intro v
    by_cases hc : (v.length.isFinite && (Fl.finite (EPSILON ℝ)).le v.length) = true
    · have hc2 := hc
      rw [Bool.and_eq_true] at hc2
      obtain ⟨hfin, hle⟩ := hc2
      obtain ⟨l, hl⟩ : ∃ l, v.length = Fl.finite l := by
        cases hv : v.length <;> simp_all [Fl.isFinite]
      have hεl : EPSILON ℝ ≤ l := by
        rw [hl] at hle
        simpa [Fl.le] using hle
      have hlpos : (0 : ℝ) < l := lt_of_lt_of_le EPSILON_real_pos hεl
      constructor
      · rw [Vec3.tryNormalize, if_pos hc]
        constructor
        · intro h; exact Option.noConfusion h
        · rintro (h | h)
          · rw [hfin] at h; exact Bool.noConfusion h
          · rw [hl] at h
            simp only [Fl.lt, decide_eq_true_eq] at h
            exact absurd hεl (not_le.mpr h)
      · rw [Vec3.tryNormalize, if_pos hc]
        have hdot : (v.dot v).isFinite = true :=
          Fl.sqrt_isFinite (by rw [← Vec3.length]; exact hfin)
        obtain ⟨hx, hy, hz⟩ := Vec3.dot_self_isFinite hdot
        rw [hl]
        exact ⟨Fl.div_isFinite_of_ne_zero hx hlpos.ne',
          Fl.div_isFinite_of_ne_zero hy hlpos.ne',
          Fl.div_isFinite_of_ne_zero hz hlpos.ne'⟩
    · constructor
      · rw [Vec3.tryNormalize, if_neg hc]
        simp only [true_iff]
        rcases hv : v.length with l | _ | _ | _
        · right
          rw [hv] at hc
          simp only [Fl.isFinite, Fl.le, Bool.true_and, decide_eq_true_eq] at hc
          simp [Fl.lt, not_le.mp hc]
        · left; rfl
        · left; rfl
        · left; rfl
      · rw [Vec3.tryNormalize, if_neg hc]
        trivial
  refine ⟨hmain, ?_⟩
  have hdot : (Vec3.zeroVec : Vec3 ℝ).dot Vec3.zeroVec = Fl.finite 0 := by
    simp [Vec3.dot, Vec3.zeroVec, Vec3.w, Fl.mul, Fl.add]
  have hlen : (Vec3.zeroVec : Vec3 ℝ).length = Fl.finite 0 := by
    rw [Vec3.length, hdot]
    simp [Fl.sqrt, Real.sqrt_zero]
  rw [Vec3.tryNormalize, hlen, if_neg]
  simp only [Fl.isFinite, Fl.le, Bool.true_and, decide_eq_true_eq]
  exact not_le.mpr EPSILON_real_pos

lemma sq_sum_pos {a b c : ℝ} (h : ¬(a = 0 ∧ b = 0 ∧ c = 0)) :
    0 < a * a + b * b + c * c := by
  rcases eq_or_ne a 0 with ha | ha
  · rcases eq_or_ne b 0 with hb | hb
    · rcases eq_or_ne c 0 with hcz | hcz
      · exact absurd ⟨ha, hb, hcz⟩ h
      · subst ha; subst hb; simpa using mul_self_pos.mpr hcz
    · subst ha; nlinarith [mul_self_pos.mpr hb, mul_self_nonneg c]
  · nlinarith [mul_self_pos.mpr ha, mul_self_nonneg b, mul_self_nonneg c]

/-- C7 (amended).  For every non-zero `Vec3` whose components are all
finite, the length of the normalized vector is approximately `1.0`: in the
exact model the length is exactly `1.0`, which every tier accepts. -/
theorem C7_normalize_unit_length (v : Vec3 ℝ)
    (hx : v.x.isFinite = true) (hy : v.y.isFinite = true)
    (hz : v.z.isFinite = true) (hv : v ≠ Vec3.zeroVec) :
    is_equal v.normalize.length (Fl.finite 1) = true := by
  obtain ⟨a, ha⟩ : ∃ a, v.x = Fl.finite a := by
    cases hx' : v.x <;> simp_all [Fl.isFinite]
  obtain ⟨b, hb⟩ : ∃ b, v.y = Fl.finite b := by
    cases hy' : v.y <;> simp_all [Fl.isFinite]
  obtain ⟨c, hc⟩ : ∃ c, v.z = Fl.finite c := by
    cases hz' : v.z <;> simp_all [Fl.isFinite]
  have habc : ¬(a = 0 ∧ b = 0 ∧ c = 0) := by
    rintro ⟨rfl, rfl, rfl⟩
    refine hv ?_
    cases v
    simp_all [Vec3.zeroVec]
  have hDpos : 0 < a * a + b * b + c * c := sq_sum_pos habc
  have hdot : v.dot v = Fl.finite (a * a + b * b + c * c) := by
    rw [Vec3.dot, ha, hb, hc]
    simp [Vec3.w, Fl.mul, Fl.add]
  have hlen : v.length = Fl.finite (Real.sqrt (a * a + b * b + c * c)) := by
    rw [Vec3.length, hdot]
    simp only [Fl.sqrt]
    rw [if_neg (not_lt.mpr hDpos.le)]
  have hsqrt_pos : 0 < Real.sqrt (a * a + b * b + c * c) :=
    Real.sqrt_pos.mpr hDpos
  have hrecip : v.lengthRecip
      = Fl.finite (1 / Real.sqrt (a * a + b * b + c * c)) := by
    rw [Vec3.lengthRecip, hlen, Fl.recip]
    simp only [Fl.div]
    rw [if_neg hsqrt_pos.ne']
  have hnorm : v.normalize
      = ⟨Fl.finite (a * (1 / Real.sqrt (a * a + b * b + c * c))),
         Fl.finite (b * (1 / Real.sqrt (a * a + b * b + c * c))),
         Fl.finite (c * (1 / Real.sqrt (a * a + b * b + c * c)))⟩ := by
    rw [Vec3.normalize, Vec3.mulScalar, hrecip, ha, hb, hc]
    rfl
  have hss : Real.sqrt (a * a + b * b + c * c)
      * Real.sqrt (a * a + b * b + c * c) = a * a + b * b + c * c :=
    Real.mul_self_sqrt hDpos.le
  have hone : a * (1 / Real.sqrt (a * a + b * b + c * c))
        * (a * (1 / Real.sqrt (a * a + b * b + c * c)))
      + b * (1 / Real.sqrt (a * a + b * b + c * c))
        * (b * (1 / Real.sqrt (a * a + b * b + c * c)))
      + c * (1 / Real.sqrt (a * a + b * b + c * c))
        * (c * (1 / Real.sqrt (a * a + b * b + c * c)))
      + 0 * 0 = 1 := by
    field_simp
  have hdot2 : v.normalize.dot v.normalize = Fl.finite 1 := by
    rw [hnorm, Vec3.dot]
    simp only [Vec3.w, Fl.mul, Fl.add]
    rw [hone]
  rw [Vec3.length, hdot2]
  simp only [Fl.sqrt]
  rw [if_neg (not_lt.mpr zero_le_one), Real.sqrt_one]
  exact is_equal_finite_self 1

/-- C7 witness: the amended statement at the concrete vector `(1, 0, 0)`. -/
theorem C7_normalize_unit_length_witness :
    is_equal (Vec3.mk (Fl.finite 1) (Fl.finite 0) (Fl.finite 0)
      : Vec3 ℝ).normalize.length (Fl.finite 1) = true :=
  C7_normalize_unit_length ⟨Fl.finite 1, Fl.finite 0, Fl.finite 0⟩ rfl rfl rfl
    (by simp [Vec3.zeroVec])

/-- C7 counterexample: the claim as stated covers every non-zero vector, but
normalizing `(inf, 0, 0)` multiplies `inf` by the zero reciprocal of its
infinite length, producing a NaN component, so the length of the result is
NaN and the comparison with `1.0` is false. -/
theorem C7_normalize_infinite_not_unit :
    is_equal (Vec3.mk Fl.inf (Fl.finite 0) (Fl.finite 0)
      : Vec3 ℝ).normalize.length (Fl.finite 1) = false := by
  have hdot : (Vec3.mk Fl.inf (Fl.finite 0) (Fl.finite 0) : Vec3 ℝ).dot
      (Vec3.mk Fl.inf (Fl.finite 0) (Fl.finite 0)) = Fl.inf := by
    simp [Vec3.dot, Vec3.w, Fl.mul, Fl.add]
  have hrecip : (Vec3.mk Fl.inf (Fl.finite 0) (Fl.finite 0)
      : Vec3 ℝ).lengthRecip = Fl.finite 0 := by
    rw [Vec3.lengthRecip, Vec3.length, hdot]
    rfl
  have hnorm : (Vec3.mk Fl.inf (Fl.finite 0) (Fl.finite 0) : Vec3 ℝ).normalize
      = ⟨Fl.nan, Fl.finite 0, Fl.finite 0⟩ := by
    rw [Vec3.normalize, Vec3.mulScalar, hrecip]
    simp [Fl.mul]
  rw [Vec3.length, hnorm]
  simp [Vec3.dot, Vec3.w, Fl.mul, Fl.add, Fl.sqrt, is_equal, Fl.beq, Fl.isNan]
